import Mathlib

/-!
Shallow embedding of the adaptive planning/execution engine of the StockAI
repository, and proofs of the frozen specification claims.

Embedded source files:
- stockai/state.py      : PlanStep data model and agent state fields.
- stockai/utils.py      : current-step lookup, planner-input selection,
  step-status update, node-output normalization, and the per-step
  execution harness with error handling.
- stockai/agent.py      : the planner node (initial planning and the
  rolling replan), and the summary node's deterministic pieces.
- stockai/session_manager.py : the task-result upsert on the audit store,
  modelled as a pure operation on a list of records.

Python strings are Lean Strings; Python None/optional strings are Option
String; Python truthiness of a string s is the test s is non-empty; the
database table is a list of records in insertion order; exceptions are the
error side of Except.  LLM calls (the planning oracle and the capability
nodes) are opaque: they enter the definitions as explicit parameters.
-/

namespace StockAI

/-- Status of a plan step, from the Literal type in stockai/state.py
(pending, running, completed, failed). -/
inductive Status where
  | pending
  | running
  | completed
  | failed
deriving DecidableEq, Repr

/-- PlanStep from stockai/state.py: id, description, target_node, inputs,
result (default empty), status (default pending). -/
structure PlanStep where
  id : String
  description : String
  target_node : String
  inputs : String
  result : String := ""
  status : Status := .pending
deriving DecidableEq, Repr

/-- Message in the LangChain message list: an AI message, a human message,
or any other message kind, each carrying its content text. -/
inductive Msg where
  | ai (content : String)
  | human (content : String)
  | other (content : String)
deriving DecidableEq, Repr

/-- AgentState fields of stockai/state.py that the engine reads and
writes: user_input, plan, current_step_index, errors, session_id. -/
structure AgentState where
  user_input : String
  plan : List PlanStep
  current_step_index : Nat
  errors : List String := []
  session_id : Option String := none
deriving DecidableEq, Repr

/-- Truthiness of a Python optional string: None and the empty string are
falsy, any other string is truthy. -/
def pyTruthy : Option String → Bool
  | none => false
  | some s => s ≠ ""

/-- Python fallback expression a or b on optional strings, as used by
save_task_result when merging into an existing record: a falsy first
operand (None or empty) yields the second operand. -/
def pyOrOpt (a b : Option String) : Option String :=
  if pyTruthy a then a else b

/-- TaskResult record of the audit store (stockai/models.py fields used by
save_task_result): session_id, step_id, step_description, target_node,
result, status, error_message. -/
structure TaskRecord where
  session_id : String
  step_id : String
  step_description : Option String
  target_node : Option String
  result : Option String
  status : String
  error_message : Option String
deriving DecidableEq, Repr

/-- SessionManager.save_task_result from stockai/session_manager.py: look
for the first record with the same (session_id, step_id); if found, update
it in place, where step_description, target_node, result and error_message
fall back to the existing values when the new value is falsy and status is
overwritten unconditionally; otherwise append a fresh record holding the
given values. -/
def save_task_result (db : List TaskRecord) (session_id step_id : String)
    (step_description target_node result : Option String) (status : String)
    (error_message : Option String) : List TaskRecord :=
  match db with
  | [] =>
      [{ session_id := session_id, step_id := step_id
         step_description := step_description, target_node := target_node
         result := result, status := status, error_message := error_message }]
  | r :: rest =>
      if r.session_id = session_id ∧ r.step_id = step_id then
        { r with
          step_description := pyOrOpt step_description r.step_description
          target_node := pyOrOpt target_node r.target_node
          result := pyOrOpt result r.result
          status := status
          error_message := pyOrOpt error_message r.error_message } :: rest
      else
        r :: save_task_result rest session_id step_id step_description
              target_node result status error_message

/-- Number of audit records carrying the given (session_id, step_id) key. -/
def countKey (db : List TaskRecord) (session_id step_id : String) : Nat :=
  (db.filter fun r => r.session_id = session_id ∧ r.step_id = step_id).length

/-- First audit record carrying the given (session_id, step_id) key. -/
def findKey (db : List TaskRecord) (session_id step_id : String) : Option TaskRecord :=
  db.find? fun r => r.session_id = session_id ∧ r.step_id = step_id

/-- The helper _get_current_step from stockai/utils.py: the step at
current_step_index, provided the plan is non-empty, the index is in range,
and that step's target_node equals the requested node name; otherwise
None. -/
def get_current_step (state : AgentState) (target_node : String) : Option PlanStep :=
  match state.plan.get? state.current_step_index with
  | some step => if step.target_node = target_node then some step else none
  | none => none

/-- get_planner_input from stockai/utils.py: the current step's inputs when
the current step matches the target node, else the raw user_input. -/
def get_planner_input (state : AgentState) (target_node : String) : String :=
  match get_current_step state target_node with
  | some step => step.inputs
  | none => state.user_input

/-- The helper _update_step_status from stockai/utils.py: when the current
step matches the target node, set its status, and set its result only when
the given result text is truthy (non-empty); otherwise leave the state
unchanged. -/
def update_step_status (state : AgentState) (target_node : String)
    (status : Status) (result : String) : AgentState :=
  match state.plan.get? state.current_step_index with
  | some step =>
      if step.target_node = target_node then
        let step' : PlanStep :=
          { step with status := status
                      result := if result ≠ "" then result else step.result }
        { state with plan := state.plan.set state.current_step_index step' }
      else state
  | none => state

/-- The helper _extract_result_from_messages from stockai/utils.py: empty
list gives the empty string; otherwise the content of the last AI message
with truthy content; otherwise a summary line with the message count. -/
def extract_result_from_messages (messages : List Msg) : String :=
  if messages = [] then ""
  else
    match messages.reverse.find? (fun m => match m with
      | .ai c => c ≠ ""
      | _ => false) with
    | some (.ai c) => c
    | _ => "生成了" ++ toString messages.length ++ "条消息"

/-- Flattening of a structured (BaseModel) output into text, as written in
_extract_result_from_output: join the non-empty field values as
field: value pairs separated by the bar separator. -/
def flattenFields (fields : List (String × String)) : String :=
  String.intercalate " | "
    ((fields.filter fun kv => kv.2 ≠ "").map fun kv => kv.1 ++ ": " ++ kv.2)

/-- Shapes a capability node's raw output can take, from the cases of
_extract_result_from_output in stockai/utils.py: a dict with messages and a
structured_response, a dict with only messages, a bare AI message, a bare
structured model, None, or any other value rendered to a string. -/
inductive NodeOutput where
  | mixedDict (messages : List Msg) (fields : List (String × String))
  | messagesDict (messages : List Msg)
  | aiMessage (content : String)
  | structured (fields : List (String × String))
  | noneValue
  | otherValue (text : String)
deriving DecidableEq, Repr

/-- The helper _extract_result_from_output from stockai/utils.py: the
standardized message list together with the result text recorded on the
step. -/
def extract_result_from_output : NodeOutput → List Msg × String
  | .mixedDict messages fields =>
      let content := flattenFields fields
      let std := messages ++ [Msg.ai content]
      (std, extract_result_from_messages std)
  | .messagesDict messages => (messages, extract_result_from_messages messages)
  | .aiMessage content => ([Msg.ai content], content)
  | .structured fields =>
      let content := flattenFields fields
      ([Msg.ai content], content)
  | .noneValue => ([Msg.ai ""], "")
  | .otherValue text => ([Msg.ai text], text)

/-- Conversational filter from extract_conversational_messages in
stockai/utils.py: keep only human and AI messages. -/
def isConversational : Msg → Bool
  | .ai _ => true
  | .human _ => true
  | .other _ => false

/-- State-update dictionary produced by format_messages_for_state in
stockai/utils.py: the conversational messages, all messages, and the
session id when one is supplied and truthy. -/
structure StateUpdate where
  conversational : List Msg
  messages : List Msg
  session_id : Option String
deriving DecidableEq, Repr

/-- format_messages_for_state from stockai/utils.py. -/
def format_messages_for_state (messages : List Msg)
    (session_id : Option String := none) : StateUpdate :=
  { conversational := messages.filter isConversational
    messages := messages
    session_id := if pyTruthy session_id then session_id else none }

/-- Result of one harness invocation: the mutated agent state, the audit
store after the harness's upserts, and the returned message update. -/
structure HarnessResult where
  state : AgentState
  db : List TaskRecord
  update : StateUpdate
deriving DecidableEq, Repr

/-- Audit write helper inside execute_node_with_error_handling: when the
session id is truthy and a current step matches the target node, upsert a
record for that step; otherwise leave the store unchanged. -/
def saveIfTracked (state : AgentState) (db : List TaskRecord)
    (target_node : String) (result : Option String) (status : String)
    (error_message : Option String) : List TaskRecord :=
  match state.session_id with
  | some sid =>
      if sid ≠ "" then
        match get_current_step state target_node with
        | some step =>
            save_task_result db sid step.id (some step.description)
              (some target_node) result status error_message
        | none => db
      else db
  | none => db

/-- execute_node_with_error_handling from stockai/utils.py.  The node body
execute_func is an opaque computation that either returns a raw output or
raises with a message, passed here as an Except value.  The harness marks
the current step running, persists a running audit record, runs the body;
on success it normalizes the output, marks the step completed with the
result text and persists a completed record; on any exception it marks the
step failed with the failure text, persists a failed record, appends the
failure to the request-scoped errors list, and returns a normal message
update instead of re-raising. -/
def execute_node_with_error_handling (state : AgentState) (db : List TaskRecord)
    (target_node : String) (execute_func : Except String NodeOutput) :
    HarnessResult :=
  let s1 := update_step_status state target_node .running ""
  let db1 := saveIfTracked s1 db target_node none "running" none
  match execute_func with
  | .ok raw =>
      let extracted := extract_result_from_output raw
      let s2 := update_step_status s1 target_node .completed extracted.2
      let db2 := saveIfTracked s2 db1 target_node (some extracted.2) "completed" none
      { state := s2, db := db2
        update := format_messages_for_state extracted.1 s2.session_id }
  | .error e =>
      let error_msg := "执行失败: " ++ e
      let s2 := update_step_status s1 target_node .failed error_msg
      let db2 := saveIfTracked s2 db1 target_node (some error_msg) "failed" (some e)
      let s3 := { s2 with errors := s2.errors ++ [target_node ++ "节点执行失败: " ++ e] }
      { state := s3, db := db2
        update := format_messages_for_state [Msg.ai (target_node ++ "执行失败: " ++ e)]
                    s3.session_id }

/-- Routing target of a planner Command in stockai/agent.py: a capability
node by name, the summary node, or END. -/
inductive Goto where
  | node (name : String)
  | summary
  | stop
deriving DecidableEq, Repr

/-- PlanOutput, the structured result of the initial planning oracle in
stockai/agent.py: a list of steps and a reasoning text. -/
structure PlanOutput where
  steps : List PlanStep
  reasoning : String
deriving DecidableEq, Repr

/-- NextStepOutput, the structured result of the rolling-replan oracle in
stockai/agent.py: the updated step list (default empty) and a reasoning
text. -/
structure NextStepOutput where
  updated_steps : List PlanStep := []
  reasoning : String
deriving DecidableEq, Repr

/-- Outcome of one planner invocation: where the graph goes next, the plan
and cursor carried in the state afterwards, and the AI message content
attached to the update. -/
structure PlannerResult where
  goto : Goto
  plan : List PlanStep
  current_step_index : Nat
  message : String
deriving DecidableEq, Repr

/-- Initial-planning branch of the planner node in stockai/agent.py (taken
when the state holds no plan).  The oracle's structured output is the
parameter.  Empty steps end the run with the reasoning as the answer;
otherwise the first step is marked running, the cursor is set to 0, and
the graph goes to the first step's target node. -/
def planner_initial (result : PlanOutput) : PlannerResult :=
  match result.steps with
  | [] =>
      { goto := .stop, plan := [], current_step_index := 0
        message := result.reasoning }
  | first :: rest =>
      let first' := { first with status := Status.running }
      { goto := .node first.target_node
        plan := first' :: rest
        current_step_index := 0
        message := "规划完成：共" ++ toString (first :: rest).length ++
          "步。开始执行第1步：" ++ first.description ++ "\n理由：" ++ result.reasoning }

/-- Suffix replacement of the rolling replan (stockai/agent.py lines
321-325): when updated_steps is non-empty, the plan becomes the slice of
the current plan up to and including the cursor followed by updated_steps;
when updated_steps is empty the plan is left as it is. -/
def replace_remaining (plan : List PlanStep) (cursor : Nat)
    (updated_steps : List PlanStep) : List PlanStep :=
  if updated_steps.isEmpty then plan
  else plan.take (cursor + 1) ++ updated_steps

/-- Tail of the rolling-replan branch of the planner node in
stockai/agent.py (after the suffix replacement): if the next index falls
outside the plan the graph goes to END, else the step at the next index is
marked running, the cursor advances to it, and the graph goes to that
step's target node. -/
def planner_dispatch (newPlan : List PlanStep) (cursor : Nat)
    (reasoning : String) : PlannerResult :=
  if h : cursor + 1 < newPlan.length then
    { goto := .node (newPlan.get ⟨cursor + 1, h⟩).target_node
      plan := newPlan.set (cursor + 1)
        { newPlan.get ⟨cursor + 1, h⟩ with status := Status.running }
      current_step_index := cursor + 1
      message := "进入下一步 [" ++ toString (cursor + 1 + 1) ++ "/" ++
        toString newPlan.length ++ "]：" ++ (newPlan.get ⟨cursor + 1, h⟩).description }
  else
    { goto := .stop, plan := newPlan, current_step_index := cursor
      message := "规划结束：" ++ reasoning }

/-- Rolling-replan branch of the planner node in stockai/agent.py (taken
when the state holds a plan), with the oracle's structured output as a
parameter.  If no next index exists the graph goes to the summary node;
otherwise the suffix after the cursor is replaced per replace_remaining
and planner_dispatch advances to the next step. -/
def planner_replan (plan : List PlanStep) (cursor : Nat)
    (decision : NextStepOutput) : PlannerResult :=
  if cursor + 1 ≥ plan.length then
    { goto := .summary, plan := plan, current_step_index := cursor
      message := "所有计划步骤已完成，开始生成总结报告。" }
  else
    planner_dispatch (replace_remaining plan cursor decision.updated_steps)
      cursor decision.reasoning

/-- Rolling replan together with the oracle call itself: the source has no
try/except around structured_llm.invoke, so an oracle exception propagates
out of the planner node unchanged. -/
def planner_replan_call (plan : List PlanStep) (cursor : Nat)
    (oracle : Except String NextStepOutput) : Except String PlannerResult :=
  let next_index := cursor + 1
  if next_index ≥ plan.length then
    .ok { goto := .summary, plan := plan, current_step_index := cursor
          message := "所有计划步骤已完成，开始生成总结报告。" }
  else
    match oracle with
    | .error e => .error e
    | .ok decision => .ok (planner_replan plan cursor decision)

/-- Replan decision that keeps the plan unchanged: updated_steps is
empty. -/
def emptyDecision : NextStepOutput := { updated_steps := [], reasoning := "" }

/-- Iteration of the planner/harness trampoline when every replan returns
an empty updated_steps list: count how many further capability-node
dispatches happen before the planner leaves the loop, and record the
final routing target.  The fuel argument only serves Lean's termination;
any fuel at least the plan length is enough. -/
def replan_loop : Nat → List PlanStep → Nat → Nat × Goto
  | 0, _, _ => (0, .stop)
  | fuel + 1, plan, cursor =>
      let r := planner_replan plan cursor emptyDecision
      match r.goto with
      | .node _ =>
          let rest := replan_loop fuel r.plan r.current_step_index
          (rest.1 + 1, rest.2)
      | g => (0, g)

/-- Whole-run execution count when the replan oracle always answers with
an empty updated_steps list: the initial planning dispatches the first
step (one execution) and then the trampoline runs; an empty initial plan
ends the run with no executions. -/
def engine_executions (result : PlanOutput) : Nat × Goto :=
  let r0 := planner_initial result
  match r0.goto with
  | .node _ =>
      let rest := replan_loop r0.plan.length r0.plan r0.current_step_index
      (rest.1 + 1, rest.2)
  | g => (0, g)

/-- SummaryOutput, the structured result of the summarization oracle in
stockai/agent.py. -/
structure SummaryOutput where
  executive_summary : String
  key_findings : List String
  investment_recommendations : List String
  risk_warnings : List String := []
  follow_up_actions : List String := []
  detailed_analysis : String
deriving DecidableEq, Repr

/-- Steps of the plan with status completed, in plan order (summary node,
stockai/agent.py). -/
def completed_steps (plan : List PlanStep) : List PlanStep :=
  plan.filter fun step => step.status = Status.completed

/-- Steps of the plan with status failed, in plan order (summary node,
stockai/agent.py). -/
def failed_steps (plan : List PlanStep) : List PlanStep :=
  plan.filter fun step => step.status = Status.failed

/-- One line of the task summary fed to the summarization oracle:
step number, description and result. -/
def stepLine (i : Nat) (step : PlanStep) : String :=
  "步骤" ++ toString i ++ " - " ++ step.description ++ ": " ++ step.result

/-- The task_summary list built by the summary node: numbered lines for
the completed steps, then, when failed steps exist, a failed-tasks heading
followed by numbered lines for the failed steps. -/
def task_summary (plan : List PlanStep) : List String :=
  ((completed_steps plan).enum.map fun p => stepLine (p.1 + 1) p.2) ++
  (if (failed_steps plan).isEmpty then []
   else "\n失败任务:" :: ((failed_steps plan).enum.map fun p => stepLine (p.1 + 1) p.2))

/-- The task_summary_text string interpolated into the summarization
oracle's system prompt. -/
def task_summary_text (plan : List PlanStep) : String :=
  String.intercalate "\n" (task_summary plan)

/-- Bulleted block rendering used by the summary node's report template. -/
def bulletBlock (items : List String) : String :=
  String.intercalate "\n" (items.map fun item => "• " ++ item)

/-- Deterministic rendering of the final report by the summary node in
stockai/agent.py, from the oracle's structured output and the plan; the
wall-clock timestamp is a parameter.  The risk and follow-up sections
appear only when their lists are non-empty, and the footer counts the
completed steps. -/
def summary_report (plan : List PlanStep) (o : SummaryOutput)
    (timestamp : String) : String :=
  let base := "# 📊 股票分析报告\n\n## 📋 执行摘要\n" ++ o.executive_summary ++
    "\n\n## 🔍 关键发现\n" ++ bulletBlock o.key_findings ++
    "\n\n## 💡 投资建议\n" ++ bulletBlock o.investment_recommendations
  let withRisk := if o.risk_warnings.isEmpty then base
    else base ++ "\n\n## ⚠️ 风险提示\n" ++ bulletBlock o.risk_warnings
  let withFollow := if o.follow_up_actions.isEmpty then withRisk
    else withRisk ++ "\n\n## 📈 后续关注\n" ++ bulletBlock o.follow_up_actions
  withFollow ++ "\n\n## 📊 详细分析\n" ++ o.detailed_analysis ++
    "\n\n---\n*报告生成时间：" ++ timestamp ++ "*\n*基于 " ++
    toString (completed_steps plan).length ++ " 个分析任务的结果生成*"

/-- Forward order on step statuses along the lifecycle chain pending,
running, then completed or failed: statusLe a b holds when a step may be
observed with status a before status b without ever moving backwards. -/
def statusLe : Status → Status → Bool
  | .pending, _ => true
  | .running, .pending => false
  | .running, _ => true
  | .completed, .completed => true
  | .completed, _ => false
  | .failed, .failed => true
  | .failed, _ => false

/-- Test whether the second character list occurs at the start of the
first. -/
def startsWithChars : List Char → List Char → Bool
  | _, [] => true
  | [], _ :: _ => false
  | b :: xs, a :: ps => (a == b) && startsWithChars xs ps

/-- Test whether the character list pat occurs contiguously anywhere in
the character list s. -/
def hasSubChars (pat : List Char) : List Char → Bool
  | [] => startsWithChars [] pat
  | b :: xs => startsWithChars (b :: xs) pat || hasSubChars pat xs

/-- Substring test used to check whether a text fragment occurs in a
rendered report. -/
def strContains (s pat : String) : Bool :=
  hasSubChars pat.data s.data

end StockAI

namespace StockAI

theorem statusLe_refl (s : Status) : statusLe s s = true := by
  cases s <;> rfl

theorem get_current_step_eq_some {state : AgentState} {target : String}
    {step : PlanStep} :
    get_current_step state target = some step ↔
      state.plan.get? state.current_step_index = some step ∧
        step.target_node = target := by
  unfold get_current_step
  cases hget : state.plan.get? state.current_step_index with
  | none => simp
  | some s =>
      by_cases htgt : s.target_node = target <;>
        simp [htgt] <;>
        rintro rfl <;> simp_all

theorem update_step_status_of_match {state : AgentState} {target : String}
    {step : PlanStep} (status : Status) (result : String)
    (hget : state.plan.get? state.current_step_index = some step)
    (htgt : step.target_node = target) :
    update_step_status state target status result =
      { state with plan := state.plan.set state.current_step_index { step with
          status := status,
          result := if result ≠ "" then result else step.result } } := by
  unfold update_step_status
  rw [hget]
  simp [htgt]

theorem update_step_status_of_none {state : AgentState} {target : String}
    (status : Status) (result : String)
    (h : get_current_step state target = none) :
    update_step_status state target status result = state := by
  unfold get_current_step at h
  unfold update_step_status
  cases hget : state.plan.get? state.current_step_index with
  | none => rfl
  | some s =>
      rw [hget] at h
      by_cases htgt : s.target_node = target
      · simp [htgt] at h
      · simp [htgt]

/-- C1: for every plan and cursor index, when the rolling replan receives a
non-empty updated_steps list, the resulting plan is the old plan's slice at
indices 0..cursor followed exactly by updated_steps: every step at an index
at most the cursor is kept bit-for-bit (same PlanStep value, hence same id,
description, target_node, inputs, result and status), and every index
beyond the cursor holds exactly the corresponding element of
updated_steps. -/
theorem C1_replan_preserves_past_and_replaces_suffix
    (plan updated_steps : List PlanStep) (cursor : Nat)
    (hne : updated_steps ≠ []) (hcur : cursor + 1 ≤ plan.length) :
    (∀ i step, i ≤ cursor → plan.get? i = some step →
      (replace_remaining plan cursor updated_steps).get? i = some step) ∧
    (∀ j, (replace_remaining plan cursor updated_steps).get? (cursor + 1 + j) =
      updated_steps.get? j) ∧
    (replace_remaining plan cursor updated_steps).length =
      cursor + 1 + updated_steps.length := by
  have hE : updated_steps.isEmpty = false := by
    cases updated_steps with
    | nil => exact absurd rfl hne
    | cons a l => rfl
  have hlen : (plan.take (cursor + 1)).length = cursor + 1 := by
    simp [List.length_take, Nat.min_eq_left hcur]
  refine ⟨?_, ?_, ?_⟩
  · intro i step hi hget
    have hlt : i < (plan.take (cursor + 1)).length := by omega
    rw [replace_remaining, hE]
    simp only [Bool.false_eq_true, if_false]
    rw [List.get?_append hlt, List.get?_take (by omega : i < cursor + 1), hget]
  · intro j
    rw [replace_remaining, hE]
    simp only [Bool.false_eq_true, if_false]
    rw [List.get?_append_right (by omega : (plan.take (cursor + 1)).length ≤ cursor + 1 + j)]
    congr 1
    omega
  · rw [replace_remaining, hE]
    simp only [Bool.false_eq_true, if_false]
    simp [List.length_append, hlen]

theorem C1_witness :
    (([⟨"s3", "d3", "market_news", "i3", "", .pending⟩] : List PlanStep) ≠ []) ∧
    0 + 1 ≤ ([⟨"s1", "d1", "trend_analyze", "i1", "r1", .completed⟩,
              ⟨"s2", "d2", "market_news", "i2", "", .pending⟩] : List PlanStep).length ∧
    (replace_remaining
      [⟨"s1", "d1", "trend_analyze", "i1", "r1", .completed⟩,
       ⟨"s2", "d2", "market_news", "i2", "", .pending⟩] 0
      [⟨"s3", "d3", "market_news", "i3", "", .pending⟩]).get? 0 =
      some ⟨"s1", "d1", "trend_analyze", "i1", "r1", .completed⟩ ∧
    (replace_remaining
      [⟨"s1", "d1", "trend_analyze", "i1", "r1", .completed⟩,
       ⟨"s2", "d2", "market_news", "i2", "", .pending⟩] 0
      [⟨"s3", "d3", "market_news", "i3", "", .pending⟩]).length = 2 := by
  refine ⟨by simp, by simp, ?_, ?_⟩
  · exact (C1_replan_preserves_past_and_replaces_suffix _ _ 0 (by simp) (by simp)).1
      0 _ (Nat.le_refl 0) rfl
  · exact (C1_replan_preserves_past_and_replaces_suffix _ _ 0 (by simp) (by simp)).2.2

/-- C5: after a rolling replan, if the plan carried forward has no step at
index cursor + 1 then the planner routed to the summary node; otherwise the
cursor advanced to cursor + 1, the step there (the one produced by the
suffix replacement) was set to status running, and the planner dispatched
to that step's target node. -/
theorem C5_dispatch_or_summarize (plan : List PlanStep) (cursor : Nat)
    (decision : NextStepOutput) :
    ((planner_replan plan cursor decision).plan.length ≤ cursor + 1 →
      (planner_replan plan cursor decision).goto = Goto.summary) ∧
    (cursor + 1 < (planner_replan plan cursor decision).plan.length →
      (planner_replan plan cursor decision).current_step_index = cursor + 1 ∧
      ∃ step,
        (replace_remaining plan cursor decision.updated_steps).get? (cursor + 1) =
          some step ∧
        (planner_replan plan cursor decision).goto = Goto.node step.target_node ∧
        (planner_replan plan cursor decision).plan.get? (cursor + 1) =
          some { step with status := Status.running }) := by
  by_cases hge : cursor + 1 ≥ plan.length
  · constructor
    · intro _
      simp [planner_replan, hge]
    · intro h
      have hplan : (planner_replan plan cursor decision).plan = plan := by
        simp [planner_replan, hge]
      rw [hplan] at h
      omega
  · have hlt : cursor + 1 < plan.length := by omega
    have hnew : cursor + 1 < (replace_remaining plan cursor decision.updated_steps).length := by
      rw [replace_remaining]
      by_cases hE : decision.updated_steps.isEmpty
      · simpa [hE] using hlt
      · have hne : decision.updated_steps ≠ [] := by
          cases h : decision.updated_steps with
          | nil => rw [h] at hE; exact absurd rfl hE
          | cons a l => simp
        rw [if_neg hE]
        have htake : (plan.take (cursor + 1)).length = cursor + 1 := by
          simp [List.length_take, Nat.min_eq_left (by omega : cursor + 1 ≤ plan.length)]
        have hpos : 0 < decision.updated_steps.length := List.length_pos.mpr hne
        simp only [List.length_append, htake]
        omega
    have hre : planner_replan plan cursor decision =
        planner_dispatch (replace_remaining plan cursor decision.updated_steps)
          cursor decision.reasoning := by
      simp [planner_replan, hge]
    rw [hre, planner_dispatch, dif_pos hnew]
    constructor
    · intro h
      simp only [List.length_set] at h
      omega
    · intro _
      exact ⟨rfl,
        (replace_remaining plan cursor decision.updated_steps).get ⟨cursor + 1, hnew⟩,
        List.get?_eq_get hnew, rfl, List.get?_set_eq_of_lt _ hnew⟩

theorem C5_witness :
    (planner_replan
      [⟨"s1", "d1", "trend_analyze", "i1", "r1", .completed⟩,
       ⟨"s2", "d2", "market_news", "i2", "", .pending⟩] 0
      { updated_steps := [], reasoning := "keep" }).current_step_index = 1 ∧
    (planner_replan
      [⟨"s1", "d1", "trend_analyze", "i1", "r1", .completed⟩,
       ⟨"s2", "d2", "market_news", "i2", "", .pending⟩] 0
      { updated_steps := [], reasoning := "keep" }).goto = Goto.node "market_news" ∧
    (planner_replan
      [⟨"s1", "d1", "trend_analyze", "i1", "r1", .completed⟩] 5
      { updated_steps := [], reasoning := "keep" }).goto = Goto.summary := by
  have h := C5_dispatch_or_summarize
    [⟨"s1", "d1", "trend_analyze", "i1", "r1", .completed⟩,
     ⟨"s2", "d2", "market_news", "i2", "", .pending⟩] 0
    { updated_steps := [], reasoning := "keep" }
  have h2 := h.2 (by decide)
  refine ⟨h2.1, ?_, ?_⟩
  · obtain ⟨step, hstep, hgoto, -⟩ := h2.2
    have hs : step = ⟨"s2", "d2", "market_news", "i2", "", .pending⟩ := by
      simpa [replace_remaining] using hstep.symm
    rw [hgoto, hs]
  · exact (C5_dispatch_or_summarize
      [⟨"s1", "d1", "trend_analyze", "i1", "r1", .completed⟩] 5
      { updated_steps := [], reasoning := "keep" }).1 (by decide)

/-- C6: when the initial-planning oracle returns an empty steps list the run
ends at END with the oracle's reasoning as the user-visible answer and no
capability node is dispatched; when steps is non-empty the first step is
set to status running, the cursor is set to 0, and the planner dispatches
to the first step's target node. -/
theorem C6_initial_planning (result : PlanOutput) :
    (result.steps = [] →
      (planner_initial result).goto = Goto.stop ∧
      (planner_initial result).message = result.reasoning ∧
      ∀ name, (planner_initial result).goto ≠ Goto.node name) ∧
    (∀ first rest, result.steps = first :: rest →
      (planner_initial result).goto = Goto.node first.target_node ∧
      (planner_initial result).current_step_index = 0 ∧
      (planner_initial result).plan =
        { first with status := Status.running } :: rest) := by
  constructor
  · intro h
    rw [planner_initial, h]
    exact ⟨rfl, rfl, fun name hn => by simp at hn⟩
  · intro first rest h
    rw [planner_initial, h]
    exact ⟨rfl, rfl, rfl⟩

theorem C6_witness :
    (planner_initial { steps := [], reasoning := "out of scope" }).goto = Goto.stop ∧
    (planner_initial { steps := [], reasoning := "out of scope" }).message = "out of scope" ∧
    (planner_initial
      { steps := [⟨"s1", "d1", "market_news", "i1", "", .pending⟩],
        reasoning := "one step" }).plan =
      [⟨"s1", "d1", "market_news", "i1", "", .running⟩] ∧
    (planner_initial
      { steps := [⟨"s1", "d1", "market_news", "i1", "", .pending⟩],
        reasoning := "one step" }).goto = Goto.node "market_news" := by
  have h1 := (C6_initial_planning { steps := [], reasoning := "out of scope" }).1 rfl
  have h2 := (C6_initial_planning
    { steps := [⟨"s1", "d1", "market_news", "i1", "", .pending⟩],
      reasoning := "one step" }).2 ⟨"s1", "d1", "market_news", "i1", "", .pending⟩ [] rfl
  exact ⟨h1.1, h1.2.1, h2.2.2, h2.1⟩

theorem saveIfTracked_of_none {state : AgentState} {db : List TaskRecord}
    {target : String} (result : Option String) (status : String)
    (error_message : Option String)
    (h : get_current_step state target = none) :
    saveIfTracked state db target result status error_message = db := by
  unfold saveIfTracked
  cases hsid : state.session_id with
  | none => rfl
  | some sid =>
      by_cases hne : sid ≠ "" <;> simp [hne, h]

theorem update_step_status_running {state : AgentState} {target : String}
    {step : PlanStep}
    (hget : state.plan.get? state.current_step_index = some step)
    (htgt : step.target_node = target) :
    update_step_status state target Status.running "" =
      { state with plan := state.plan.set state.current_step_index { step with
          status := Status.running } } := by
  rw [update_step_status_of_match Status.running "" hget htgt]
  simp

theorem update_step_status_result {state : AgentState} {target : String}
    {step : PlanStep} (status : Status) (result : String)
    (hget : state.plan.get? state.current_step_index = some step)
    (htgt : step.target_node = target) (hres : result ≠ "") :
    update_step_status state target status result =
      { state with plan := state.plan.set state.current_step_index { step with
          status := status, result := result } } := by
  rw [update_step_status_of_match status result hget htgt, if_pos hres]

theorem exec_failed_msg_ne_empty (e : String) : ("执行失败: " ++ e) ≠ "" := by
  intro h
  have h2 := congrArg String.length h
  rw [String.length_append] at h2
  simp at h2
  have h6 : ("执行失败: ").length = 6 := by decide
  omega

/-- C2: when the capability node raises any exception, the harness marks
the step at the cursor (the one matching the invoked node) failed with
result 执行失败: followed by the exception message (the source's literal
for execution failed: message), appends the failure to the request-scoped
errors list, and returns an ordinary message update rather than
re-raising; the total return type of the embedding witnesses that no
exception escapes. -/
theorem C2_harness_failure (state : AgentState) (db : List TaskRecord)
    (target : String) (step : PlanStep) (e : String)
    (hstep : get_current_step state target = some step) :
    ((execute_node_with_error_handling state db target (Except.error e)).state.plan.get?
        state.current_step_index =
      some { step with status := Status.failed, result := "执行失败: " ++ e }) ∧
    (execute_node_with_error_handling state db target (Except.error e)).state.errors =
      state.errors ++ [target ++ "节点执行失败: " ++ e] ∧
    (execute_node_with_error_handling state db target (Except.error e)).update.messages =
      [Msg.ai (target ++ "执行失败: " ++ e)] := by
  obtain ⟨hget, htgt⟩ := get_current_step_eq_some.mp hstep
  have hlen : state.current_step_index < state.plan.length := (List.get?_eq_some.mp hget).1
  have hmsg := exec_failed_msg_ne_empty e
  have hget1 : (state.plan.set state.current_step_index
      { step with status := Status.running }).get? state.current_step_index =
      some { step with status := Status.running } :=
    List.get?_set_eq_of_lt _ hlen
  have htgt1 : ({ step with status := Status.running } : PlanStep).target_node = target := htgt
  have hexec : (execute_node_with_error_handling state db target (Except.error e)).state =
      { state with
          plan := state.plan.set state.current_step_index { step with
            status := Status.failed, result := "执行失败: " ++ e },
          errors := state.errors ++ [target ++ "节点执行失败: " ++ e] } := by
    simp only [execute_node_with_error_handling]
    rw [update_step_status_running hget htgt]
    rw [update_step_status_result Status.failed ("执行失败: " ++ e) hget1 htgt1 hmsg]
    simp [List.set_set]
  refine ⟨?_, ?_, ?_⟩
  · rw [hexec]
    exact List.get?_set_eq_of_lt _ hlen
  · rw [hexec]
  · simp only [execute_node_with_error_handling]
    rw [update_step_status_running hget htgt]
    rw [update_step_status_result Status.failed ("执行失败: " ++ e) hget1 htgt1 hmsg]
    rfl

theorem C2_witness :
    (get_current_step
        { user_input := "u",
          plan := [⟨"s1", "d1", "market_news", "i1", "", .running⟩],
          current_step_index := 0, errors := [], session_id := none }
        "market_news" = some ⟨"s1", "d1", "market_news", "i1", "", .running⟩) ∧
    ((execute_node_with_error_handling
        { user_input := "u",
          plan := [⟨"s1", "d1", "market_news", "i1", "", .running⟩],
          current_step_index := 0, errors := [], session_id := none }
        [] "market_news" (Except.error "timeout")).state.plan.get? 0 =
      some ⟨"s1", "d1", "market_news", "i1", "执行失败: timeout", .failed⟩) ∧
    (execute_node_with_error_handling
        { user_input := "u",
          plan := [⟨"s1", "d1", "market_news", "i1", "", .running⟩],
          current_step_index := 0, errors := [], session_id := none }
        [] "market_news" (Except.error "timeout")).state.errors =
      ["market_news节点执行失败: timeout"] := by
  have h := C2_harness_failure
    { user_input := "u",
      plan := [⟨"s1", "d1", "market_news", "i1", "", .running⟩],
      current_step_index := 0, errors := [], session_id := none }
    [] "market_news" ⟨"s1", "d1", "market_news", "i1", "", .running⟩ "timeout" rfl
  exact ⟨rfl, h.1, h.2.1⟩

/-- C10: when the plan is empty, the cursor is out of range, or the step at
the cursor targets a different node than the one invoked, the capability
node receives the raw user_input as its instruction, and the harness
leaves every step (the whole plan) and the audit store untouched, for any
outcome of the node body: the mismatch is silently ignored. -/
theorem C10_mismatch_ignored (state : AgentState) (db : List TaskRecord)
    (target : String) (execute_func : Except String NodeOutput)
    (h : state.plan = [] ∨ state.plan.length ≤ state.current_step_index ∨
      (∀ step, state.plan.get? state.current_step_index = some step →
        step.target_node ≠ target)) :
    get_planner_input state target = state.user_input ∧
    (execute_node_with_error_handling state db target execute_func).state.plan =
      state.plan ∧
    (execute_node_with_error_handling state db target execute_func).db = db := by
  have hnone : get_current_step state target = none := by
    unfold get_current_step
    cases hget : state.plan.get? state.current_step_index with
    | none => rfl
    | some step =>
        have hlt : state.current_step_index < state.plan.length :=
          (List.get?_eq_some.mp hget).1
        rcases h with h | h | h
        · rw [h] at hlt; simp at hlt
        · omega
        · simp [h step hget]
  have hupd : ∀ status result,
      update_step_status state target status result = state :=
    fun status result => update_step_status_of_none status result hnone
  refine ⟨?_, ?_, ?_⟩
  · unfold get_planner_input
    rw [hnone]
  · cases execute_func with
    | ok raw =>
        simp only [execute_node_with_error_handling, hupd]
    | error e =>
        simp only [execute_node_with_error_handling, hupd]
  · cases execute_func with
    | ok raw =>
        simp only [execute_node_with_error_handling, hupd]
        rw [saveIfTracked_of_none none "running" none hnone,
          saveIfTracked_of_none _ "completed" none hnone]
    | error e =>
        simp only [execute_node_with_error_handling, hupd]
        rw [saveIfTracked_of_none none "running" none hnone,
          saveIfTracked_of_none _ "failed" _ hnone]

theorem C10_witness :
    (([] : List PlanStep) = [] ∨ ([] : List PlanStep).length ≤ 0 ∨
      (∀ step, ([] : List PlanStep).get? 0 = some step →
        step.target_node ≠ "market_news")) ∧
    get_planner_input
      { user_input := "今天大盘怎么样", plan := [], current_step_index := 0,
        errors := [], session_id := some "sess" } "market_news" = "今天大盘怎么样" ∧
    (execute_node_with_error_handling
      { user_input := "今天大盘怎么样", plan := [], current_step_index := 0,
        errors := [], session_id := some "sess" } [] "market_news"
      (Except.ok (NodeOutput.aiMessage "up 3%"))).db = [] := by
  have h := C10_mismatch_ignored
    { user_input := "今天大盘怎么样", plan := [], current_step_index := 0,
      errors := [], session_id := some "sess" } [] "market_news"
    (Except.ok (NodeOutput.aiMessage "up 3%")) (Or.inl rfl)
  exact ⟨Or.inl rfl, h.1, h.2.2⟩

theorem planner_replan_nochange_spec (plan : List PlanStep) (cursor : Nat)
    (d : NextStepOutput) (hd : d.updated_steps = [])
    (hlt : cursor + 1 < plan.length) :
    (planner_replan plan cursor d).goto =
      Goto.node (plan.get ⟨cursor + 1, hlt⟩).target_node ∧
    (planner_replan plan cursor d).plan =
      plan.set (cursor + 1) { plan.get ⟨cursor + 1, hlt⟩ with
        status := Status.running } ∧
    (planner_replan plan cursor d).current_step_index = cursor + 1 := by
  have hre : replace_remaining plan cursor d.updated_steps = plan := by
    simp [replace_remaining, hd]
  have h1 : planner_replan plan cursor d =
      planner_dispatch plan cursor d.reasoning := by
    rw [planner_replan, if_neg (by omega : ¬ cursor + 1 ≥ plan.length), hre]
  rw [h1, planner_dispatch, dif_pos hlt]
  exact ⟨rfl, rfl, rfl⟩

theorem planner_replan_empty_spec (plan : List PlanStep) (cursor : Nat)
    (hlt : cursor + 1 < plan.length) :
    (planner_replan plan cursor emptyDecision).goto =
      Goto.node (plan.get ⟨cursor + 1, hlt⟩).target_node ∧
    (planner_replan plan cursor emptyDecision).plan =
      plan.set (cursor + 1) { plan.get ⟨cursor + 1, hlt⟩ with
        status := Status.running } ∧
    (planner_replan plan cursor emptyDecision).current_step_index = cursor + 1 :=
  planner_replan_nochange_spec plan cursor emptyDecision rfl hlt

theorem replan_loop_succ_node (fuel : Nat) (plan : List PlanStep) (cursor : Nat)
    (name : String)
    (hg : (planner_replan plan cursor emptyDecision).goto = Goto.node name) :
    replan_loop (fuel + 1) plan cursor =
      ((replan_loop fuel (planner_replan plan cursor emptyDecision).plan
          (planner_replan plan cursor emptyDecision).current_step_index).1 + 1,
       (replan_loop fuel (planner_replan plan cursor emptyDecision).plan
          (planner_replan plan cursor emptyDecision).current_step_index).2) := by
  conv_lhs => unfold replan_loop
  simp only [hg]

theorem replan_loop_succ_summary (fuel : Nat) (plan : List PlanStep) (cursor : Nat)
    (hg : (planner_replan plan cursor emptyDecision).goto = Goto.summary) :
    replan_loop (fuel + 1) plan cursor = (0, Goto.summary) := by
  conv_lhs => unfold replan_loop
  simp only [hg]

theorem replan_loop_empty (fuel : Nat) : ∀ (plan : List PlanStep) (cursor : Nat),
    plan.length ≤ cursor + fuel + 1 →
    replan_loop (fuel + 1) plan cursor = (plan.length - (cursor + 1), Goto.summary) := by
  induction fuel with
  | zero =>
      intro plan cursor h
      have hge : cursor + 1 ≥ plan.length := by omega
      have hg : (planner_replan plan cursor emptyDecision).goto = Goto.summary := by
        rw [planner_replan, if_pos hge]
      rw [replan_loop_succ_summary 0 plan cursor hg]
      have h0 : plan.length - (cursor + 1) = 0 := by omega
      rw [h0]
  | succ n ih =>
      intro plan cursor h
      by_cases hge : cursor + 1 ≥ plan.length
      · have hg : (planner_replan plan cursor emptyDecision).goto = Goto.summary := by
          rw [planner_replan, if_pos hge]
        rw [replan_loop_succ_summary (n + 1) plan cursor hg]
        have h0 : plan.length - (cursor + 1) = 0 := by omega
        rw [h0]
      · have hlt : cursor + 1 < plan.length := by omega
        obtain ⟨hg, hp, hc⟩ := planner_replan_empty_spec plan cursor hlt
        have hlen : (planner_replan plan cursor emptyDecision).plan.length =
            plan.length := by
          rw [hp, List.length_set]
        rw [replan_loop_succ_node (n + 1) plan cursor _ hg, hc,
          ih (planner_replan plan cursor emptyDecision).plan (cursor + 1)
            (by rw [hlen]; omega),
          hlen]
        have hq : plan.length - (cursor + 1 + 1) + 1 = plan.length - (cursor + 1) := by
          omega
        rw [hq]

/-- C3: for every non-empty initial plan of length n, if every rolling
replan returns an empty updated_steps list, the engine executes exactly n
capability-node dispatches (the initial one plus one per replan) and then
reaches the summary transition; each replan that dispatches advances the
cursor by exactly one, and as soon as cursor + 1 reaches the plan length
the planner routes to the summary node for any oracle decision. -/
theorem C3_termination (steps : List PlanStep) (reasoning : String)
    (h : steps ≠ []) :
    engine_executions { steps := steps, reasoning := reasoning } =
      (steps.length, Goto.summary) ∧
    (∀ (plan : List PlanStep) (cursor : Nat), cursor + 1 < plan.length →
      (planner_replan plan cursor emptyDecision).current_step_index = cursor + 1) ∧
    (∀ (plan : List PlanStep) (cursor : Nat) (d : NextStepOutput),
      plan.length ≤ cursor + 1 →
      (planner_replan plan cursor d).goto = Goto.summary) := by
  refine ⟨?_, ?_, ?_⟩
  · cases hs : steps with
    | nil => exact absurd hs h
    | cons first rest =>
        have hinit : planner_initial { steps := first :: rest, reasoning := reasoning } =
            { goto := .node first.target_node
              plan := { first with status := Status.running } :: rest
              current_step_index := 0
              message := "规划完成：共" ++ toString (first :: rest).length ++
                "步。开始执行第1步：" ++ first.description ++ "\n理由：" ++ reasoning } := by
          rw [planner_initial]
        simp only [engine_executions, hinit]
        have hlenp : ({ first with status := Status.running } :: rest).length =
            rest.length + 1 := by simp
        rw [hlenp]
        rw [replan_loop_empty rest.length
          ({ first with status := Status.running } :: rest) 0 (by simp)]
        simp
  · intro plan cursor hlt
    exact (planner_replan_empty_spec plan cursor hlt).2.2
  · intro plan cursor d hle
    rw [planner_replan, if_pos (by omega : cursor + 1 ≥ plan.length)]

theorem C3_witness :
    (([⟨"s1", "d1", "market_news", "i1", "", .pending⟩,
       ⟨"s2", "d2", "trend_analyze", "i2", "", .pending⟩] : List PlanStep) ≠ []) ∧
    engine_executions
      { steps := [⟨"s1", "d1", "market_news", "i1", "", .pending⟩,
                  ⟨"s2", "d2", "trend_analyze", "i2", "", .pending⟩],
        reasoning := "two steps" } = (2, Goto.summary) := by
  refine ⟨by simp, ?_⟩
  exact (C3_termination
    [⟨"s1", "d1", "market_news", "i1", "", .pending⟩,
     ⟨"s2", "d2", "trend_analyze", "i2", "", .pending⟩] "two steps" (by simp)).1

/-- C4 counterexample: at a concrete state with a pending next step, a
failing rolling-replan oracle call makes the planner raise (there is no
try/except in the source around the oracle invocation): the call returns
the propagated exception instead of a normal planner result, so the plan
is not advanced, no step is executed, and nothing is recorded in the
request-scoped error log — contradicting the claimed conservative
handling. -/
theorem C4_counterexample :
    planner_replan_call
      [⟨"s1", "d1", "market_news", "i1", "r1", .completed⟩,
       ⟨"s2", "d2", "trend_analyze", "i2", "", .pending⟩] 0
      (Except.error "timeout") = Except.error "timeout" := by
  rfl

/-- C4 (amended): whenever a next step exists, a failing rolling-replan
oracle call propagates its exception out of the planner unchanged; the
planner produces no state update at all (no plan change, no cursor
advance, no error-log entry) and the request aborts. -/
theorem C4_oracle_failure_propagates (plan : List PlanStep) (cursor : Nat)
    (e : String) (h : cursor + 1 < plan.length) :
    planner_replan_call plan cursor (Except.error e) = Except.error e := by
  rw [planner_replan_call, if_neg (by omega : ¬ cursor + 1 ≥ plan.length)]

theorem C4_witness :
    0 + 1 < ([⟨"s1", "d1", "market_news", "i1", "r1", .completed⟩,
              ⟨"s2", "d2", "trend_analyze", "i2", "", .pending⟩] : List PlanStep).length ∧
    planner_replan_call
      [⟨"s1", "d1", "market_news", "i1", "r1", .completed⟩,
       ⟨"s2", "d2", "trend_analyze", "i2", "", .pending⟩] 0
      (Except.error "rate limited") = Except.error "rate limited" := by
  exact ⟨by simp, C4_oracle_failure_propagates _ 0 "rate limited" (by simp)⟩

theorem harness_plan_of_none (state : AgentState) (db : List TaskRecord)
    (target : String) (f : Except String NodeOutput)
    (hnone : get_current_step state target = none) :
    (execute_node_with_error_handling state db target f).state.plan =
      state.plan := by
  have hupd : ∀ status result,
      update_step_status state target status result = state :=
    fun status result => update_step_status_of_none status result hnone
  cases f with
  | ok raw => simp only [execute_node_with_error_handling, hupd]
  | error e => simp only [execute_node_with_error_handling, hupd]

theorem harness_plan_of_match (state : AgentState) (db : List TaskRecord)
    (target : String) (st : PlanStep) (f : Except String NodeOutput)
    (hstep : get_current_step state target = some st) :
    ∃ fin R, ((execute_node_with_error_handling state db target f).state.plan =
      state.plan.set state.current_step_index { st with
        status := fin, result := R }) ∧
      (fin = Status.completed ∨ fin = Status.failed) := by
  obtain ⟨hget, htgt⟩ := get_current_step_eq_some.mp hstep
  have hlen : state.current_step_index < state.plan.length := (List.get?_eq_some.mp hget).1
  have hget1 : (state.plan.set state.current_step_index
      { st with status := Status.running }).get? state.current_step_index =
      some { st with status := Status.running } :=
    List.get?_set_eq_of_lt _ hlen
  have htgt1 : ({ st with status := Status.running } : PlanStep).target_node = target := htgt
  cases f with
  | ok raw =>
      refine ⟨Status.completed,
        if (extract_result_from_output raw).2 ≠ ""
          then (extract_result_from_output raw).2 else st.result,
        ?_, Or.inl rfl⟩
      simp only [execute_node_with_error_handling]
      rw [update_step_status_running hget htgt]
      rw [update_step_status_of_match Status.completed
        (extract_result_from_output raw).2 hget1 htgt1]
      simp [List.set_set]
  | error e =>
      refine ⟨Status.failed, "执行失败: " ++ e, ?_, Or.inr rfl⟩
      simp only [execute_node_with_error_handling]
      rw [update_step_status_running hget htgt]
      rw [update_step_status_result Status.failed ("执行失败: " ++ e) hget1 htgt1
        (exec_failed_msg_ne_empty e)]
      simp [List.set_set]

/-- C7: each engine operation moves every retained step's status only
forward along the chain pending, running, then completed or failed, and
keeps its id: the initial planning moves the (pending) first step to
running and leaves the rest untouched; the harness moves the matching
current step (given the harness precondition that it is pending or
running) to completed or failed and touches no other step; a replan whose
decision is empty moves the (pending) step after the cursor to running and
touches nothing else; and any replan whatsoever leaves every index at most
the cursor bit-for-bit unchanged, so terminal steps are never restarted
and suffix steps change only by wholesale replacement with new step
objects. -/
theorem C7_status_monotone :
    (∀ (res : PlanOutput) (first : PlanStep) (rest : List PlanStep),
      res.steps = first :: rest → first.status = Status.pending →
      ∀ i s s', res.steps.get? i = some s →
        (planner_initial res).plan.get? i = some s' →
        s'.id = s.id ∧ statusLe s.status s'.status = true) ∧
    (∀ (state : AgentState) (db : List TaskRecord) (target : String)
      (f : Except String NodeOutput),
      (∀ st, get_current_step state target = some st →
        st.status = Status.pending ∨ st.status = Status.running) →
      ∀ i s s', state.plan.get? i = some s →
        (execute_node_with_error_handling state db target f).state.plan.get? i =
          some s' →
        s'.id = s.id ∧ statusLe s.status s'.status = true) ∧
    (∀ (plan : List PlanStep) (cursor : Nat) (d : NextStepOutput),
      d.updated_steps = [] →
      (∀ st, plan.get? (cursor + 1) = some st → st.status = Status.pending) →
      ∀ i s s', plan.get? i = some s →
        (planner_replan plan cursor d).plan.get? i = some s' →
        s'.id = s.id ∧ statusLe s.status s'.status = true) ∧
    (∀ (plan : List PlanStep) (cursor : Nat) (d : NextStepOutput) (i : Nat),
      i ≤ cursor → (planner_replan plan cursor d).plan.get? i = plan.get? i) := by
  refine ⟨?_, ?_, ?_, ?_⟩
  · intro res first rest hres hpend i s s' hs hs'
    rw [hres] at hs
    rw [planner_initial, hres] at hs'
    cases i with
    | zero =>
        simp only [List.get?] at hs hs'
        injection hs with hs
        injection hs' with hs'
        rw [← hs, ← hs']
        exact ⟨rfl, by rw [hpend]; rfl⟩
    | succ n =>
        simp only [List.get?] at hs hs'
        rw [hs] at hs'
        injection hs' with hs'
        rw [← hs']
        exact ⟨rfl, statusLe_refl _⟩
  · intro state db target f hterm i s s' hs hs'
    cases hcs : get_current_step state target with
    | none =>
        rw [harness_plan_of_none state db target f hcs, hs] at hs'
        injection hs' with hs'
        rw [← hs']
        exact ⟨rfl, statusLe_refl _⟩
    | some st =>
        obtain ⟨fin, R, hplan, hfin⟩ := harness_plan_of_match state db target st f hcs
        rw [hplan] at hs'
        by_cases hidx : state.current_step_index = i
        · subst hidx
          have hlen : state.current_step_index < state.plan.length :=
            (List.get?_eq_some.mp hs).1
          rw [List.get?_set_eq_of_lt _ hlen] at hs'
          injection hs' with hs'
          obtain ⟨hget, htgt⟩ := get_current_step_eq_some.mp hcs
          rw [hs] at hget
          injection hget with hget
          have hst := hterm st hcs
          rw [← hs', hget]
          refine ⟨rfl, ?_⟩
          rcases hst with hst | hst <;> rcases hfin with hfin | hfin <;>
            rw [hst, hfin] <;> rfl
        · rw [List.get?_set_ne _ _ hidx, hs] at hs'
          injection hs' with hs'
          rw [← hs']
          exact ⟨rfl, statusLe_refl _⟩
  · intro plan cursor d hd hpend i s s' hs hs'
    by_cases hge : cursor + 1 ≥ plan.length
    · have hpl : (planner_replan plan cursor d).plan = plan := by
        rw [planner_replan, if_pos hge]
      rw [hpl, hs] at hs'
      injection hs' with hs'
      rw [← hs']
      exact ⟨rfl, statusLe_refl _⟩
    · have hlt : cursor + 1 < plan.length := by omega
      obtain ⟨hg, hp, hc⟩ := planner_replan_nochange_spec plan cursor d hd hlt
      rw [hp] at hs'
      by_cases hidx : cursor + 1 = i
      · subst hidx
        rw [List.get?_set_eq_of_lt _ hlt] at hs'
        injection hs' with hs'
        have hsget : plan.get ⟨cursor + 1, hlt⟩ = s := by
          have hq := List.get?_eq_get hlt
          rw [hs] at hq
          injection hq with hq
          exact hq.symm
        rw [← hs', hsget]
        refine ⟨rfl, ?_⟩
        rw [hpend s hs]
        rfl
      · rw [List.get?_set_ne _ _ hidx, hs] at hs'
        injection hs' with hs'
        rw [← hs']
        exact ⟨rfl, statusLe_refl _⟩
  · intro plan cursor d i hi
    by_cases hge : cursor + 1 ≥ plan.length
    · rw [planner_replan, if_pos hge]
    · have hlt : cursor + 1 < plan.length := by omega
      have hnew : cursor + 1 < (replace_remaining plan cursor d.updated_steps).length := by
        rw [replace_remaining]
        by_cases hE : d.updated_steps.isEmpty
        · simpa [hE] using hlt
        · have hne : d.updated_steps ≠ [] := by
            cases hq : d.updated_steps with
            | nil => rw [hq] at hE; exact absurd rfl hE
            | cons a l => simp
          rw [if_neg hE]
          have htake : (plan.take (cursor + 1)).length = cursor + 1 := by
            simp [List.length_take, Nat.min_eq_left (by omega : cursor + 1 ≤ plan.length)]
          have hpos : 0 < d.updated_steps.length := List.length_pos.mpr hne
          simp only [List.length_append, htake]
          omega
      have h1 : planner_replan plan cursor d =
          planner_dispatch (replace_remaining plan cursor d.updated_steps)
            cursor d.reasoning := by
        rw [planner_replan, if_neg (by omega : ¬ cursor + 1 ≥ plan.length)]
      rw [h1, planner_dispatch, dif_pos hnew]
      rw [List.get?_set_ne _ _ (by omega : cursor + 1 ≠ i)]
      rw [replace_remaining]
      by_cases hE : d.updated_steps.isEmpty
      · rw [if_pos hE]
      · rw [if_neg hE]
        have htake : (plan.take (cursor + 1)).length = cursor + 1 := by
          simp [List.length_take, Nat.min_eq_left (by omega : cursor + 1 ≤ plan.length)]
        rw [List.get?_append (by omega : i < (plan.take (cursor + 1)).length)]
        rw [List.get?_take (by omega : i < cursor + 1)]

theorem C7_witness :
    (⟨"s1", "d1", "market_news", "i1", "执行失败: x", Status.failed⟩ : PlanStep).id =
      (⟨"s1", "d1", "market_news", "i1", "", Status.running⟩ : PlanStep).id ∧
    statusLe Status.running Status.failed = true := by
  have h := C7_status_monotone.2.1
    { user_input := "u",
      plan := [⟨"s1", "d1", "market_news", "i1", "", Status.running⟩],
      current_step_index := 0, errors := [], session_id := none } [] "market_news"
    (Except.error "x")
    (fun st hst => by
      injection hst with hst
      rw [← hst]
      exact Or.inr rfl)
    0 ⟨"s1", "d1", "market_news", "i1", "", Status.running⟩
    ⟨"s1", "d1", "market_news", "i1", "执行失败: x", Status.failed⟩ rfl rfl
  exact h

theorem save_task_result_fresh (db : List TaskRecord) (sid st : String)
    (d t r : Option String) (s : String) (e : Option String) :
    countKey db sid st = 0 →
    save_task_result db sid st d t r s e =
      db ++ [{ session_id := sid, step_id := st, step_description := d,
               target_node := t, result := r, status := s, error_message := e }] := by
  induction db with
  | nil => intro _; rfl
  | cons hd tl ih =>
      intro h
      by_cases hk : hd.session_id = sid ∧ hd.step_id = st
      · exfalso
        simp [countKey, List.filter_cons, hk] at h
      · have h' : countKey tl sid st = 0 := by
          simpa [countKey, List.filter_cons, hk] using h
        simp only [save_task_result, if_neg hk, List.cons_append]
        rw [ih h']

theorem save_task_result_update_last (db : List TaskRecord) (sid st : String)
    (rec1 : TaskRecord) (hrec : rec1.session_id = sid ∧ rec1.step_id = st)
    (d t r : Option String) (s : String) (e : Option String) :
    countKey db sid st = 0 →
    save_task_result (db ++ [rec1]) sid st d t r s e =
      db ++ [{ rec1 with
        step_description := pyOrOpt d rec1.step_description,
        target_node := pyOrOpt t rec1.target_node,
        result := pyOrOpt r rec1.result,
        status := s,
        error_message := pyOrOpt e rec1.error_message }] := by
  induction db with
  | nil =>
      intro _
      simp only [List.nil_append]
      simp only [save_task_result, if_pos hrec]
  | cons hd tl ih =>
      intro h
      by_cases hk : hd.session_id = sid ∧ hd.step_id = st
      · exfalso
        simp [countKey, List.filter_cons, hk] at h
      · have h' : countKey tl sid st = 0 := by
          simpa [countKey, List.filter_cons, hk] using h
        simp only [List.cons_append, save_task_result, if_neg hk]
        show hd :: save_task_result (tl ++ [rec1]) sid st d t r s e = _
        rw [ih h']

/-- C8 counterexample: two audit upserts with the same (session_id,
step_id) key but different status and result values (the first writes
result r1 with status running, the second writes result None with status
completed).  Exactly one record remains and it carries the latest status,
but its result is still r1 rather than the latest call's None: the update
falls back to the prior value when the new one is falsy, so the record
does not reflect the latest call's result. -/
theorem C8_counterexample :
    save_task_result
      (save_task_result [] "sess" "s1" (some "d") (some "market_news")
        (some "r1") "running" none)
      "sess" "s1" (some "d") (some "market_news") none "completed" none =
      [{ session_id := "sess", step_id := "s1", step_description := some "d",
         target_node := some "market_news", result := some "r1",
         status := "completed", error_message := none }] ∧
    (some "r1" : Option String) ≠ none := by
  exact ⟨rfl, by simp⟩

/-- C8 (amended): two upserts with the same (session_id, step_id) key on a
store with no prior record for that key leave exactly one record for that
key, found as the only match; that record carries the latest call's status
unconditionally, while each of step_description, target_node, result and
error_message carries the latest call's value when that value is truthy
(non-None, non-empty) and otherwise retains the first call's value. -/
theorem C8_upsert_single_record (db : List TaskRecord) (sid st : String)
    (d1 t1 r1 : Option String) (s1 : String) (e1 : Option String)
    (d2 t2 r2 : Option String) (s2 : String) (e2 : Option String)
    (h : countKey db sid st = 0) :
    countKey (save_task_result (save_task_result db sid st d1 t1 r1 s1 e1)
      sid st d2 t2 r2 s2 e2) sid st = 1 ∧
    findKey (save_task_result (save_task_result db sid st d1 t1 r1 s1 e1)
      sid st d2 t2 r2 s2 e2) sid st =
      some { session_id := sid, step_id := st,
             step_description := pyOrOpt d2 d1, target_node := pyOrOpt t2 t1,
             result := pyOrOpt r2 r1, status := s2,
             error_message := pyOrOpt e2 e1 } := by
  have hfilter : db.filter
      (fun rec => rec.session_id = sid ∧ rec.step_id = st) = [] :=
    List.length_eq_zero.mp h
  rw [save_task_result_fresh db sid st d1 t1 r1 s1 e1 h]
  rw [save_task_result_update_last db sid st _ ⟨rfl, rfl⟩ d2 t2 r2 s2 e2 h]
  constructor
  · rw [countKey, List.filter_append, hfilter]
    simp
  · rw [findKey, List.find?_append]
    have hnone : db.find?
        (fun rec => rec.session_id = sid ∧ rec.step_id = st) = none := by
      rw [List.find?_eq_none]
      intro x hx hpx
      have : x ∈ db.filter (fun rec => rec.session_id = sid ∧ rec.step_id = st) :=
        List.mem_filter.mpr ⟨hx, hpx⟩
      rw [hfilter] at this
      simp at this
    rw [hnone]
    simp

theorem C8_witness :
    countKey ([] : List TaskRecord) "sess" "s1" = 0 ∧
    countKey (save_task_result
      (save_task_result [] "sess" "s1" (some "d") (some "n") (some "r1") "running" none)
      "sess" "s1" none none (some "r2") "completed" none) "sess" "s1" = 1 ∧
    findKey (save_task_result
      (save_task_result [] "sess" "s1" (some "d") (some "n") (some "r1") "running" none)
      "sess" "s1" none none (some "r2") "completed" none) "sess" "s1" =
      some { session_id := "sess", step_id := "s1", step_description := some "d",
             target_node := some "n", result := some "r2", status := "completed",
             error_message := none } := by
  have h := C8_upsert_single_record [] "sess" "s1"
    (some "d") (some "n") (some "r1") "running" none
    none none (some "r2") "completed" none rfl
  exact ⟨rfl, h.1, h.2⟩

/-- C9 counterexample: a concrete plan containing one failed step and a
fixed summarization-oracle output.  The rendered final report is
character-for-character identical to the report rendered from an empty
plan with the same oracle output, and the failed step's description does
not occur anywhere in the report: the deterministic rendering has no
limitations section and does not surface failed steps by itself. -/
theorem C9_counterexample :
    summary_report [⟨"s1", "XFAILDESCX", "market_news", "i1", "XFAILRESX", .failed⟩]
      { executive_summary := "摘要", key_findings := ["发现"],
        investment_recommendations := ["建议"], risk_warnings := [],
        follow_up_actions := [], detailed_analysis := "分析" } "2026-10-12" =
    summary_report []
      { executive_summary := "摘要", key_findings := ["发现"],
        investment_recommendations := ["建议"], risk_warnings := [],
        follow_up_actions := [], detailed_analysis := "分析" } "2026-10-12" ∧
    strContains
      (summary_report [⟨"s1", "XFAILDESCX", "market_news", "i1", "XFAILRESX", .failed⟩]
        { executive_summary := "摘要", key_findings := ["发现"],
          investment_recommendations := ["建议"], risk_warnings := [],
          follow_up_actions := [], detailed_analysis := "分析" } "2026-10-12")
      "XFAILDESCX" = false := by
  exact ⟨rfl, by decide⟩

/-- C9 (amended): the summary node partitions the plan's steps by status
(a failed step lands in the failed partition, never in the completed one)
and surfaces every failed step in the task summary handed to the
summarization oracle: the failed-tasks heading appears in the task summary
and so does a numbered line carrying the failed step's description and
result.  Whether the failed step appears in the rendered final report is
up to the oracle, not the engine. -/
theorem C9_failed_surfaced_to_oracle (plan : List PlanStep) (step : PlanStep)
    (hmem : step ∈ plan) (hfailed : step.status = Status.failed) :
    step ∈ failed_steps plan ∧
    step ∉ completed_steps plan ∧
    "\n失败任务:" ∈ task_summary plan ∧
    ∃ i, stepLine (i + 1) step ∈ task_summary plan := by
  have hmemf : step ∈ failed_steps plan :=
    List.mem_filter.mpr ⟨hmem, by simp [hfailed]⟩
  have hne : ¬ (failed_steps plan).isEmpty = true := by
    cases hq : failed_steps plan with
    | nil => rw [hq] at hmemf; simp at hmemf
    | cons a l => simp
  refine ⟨hmemf, ?_, ?_, ?_⟩
  · intro hc
    have h2 := (List.mem_filter.mp hc).2
    rw [hfailed] at h2
    simp at h2
  · rw [task_summary, if_neg hne]
    exact List.mem_append_right _ (List.mem_cons_self _ _)
  · obtain ⟨n, hn⟩ := List.mem_iff_get?.mp hmemf
    refine ⟨n, ?_⟩
    have henum : (failed_steps plan).enum.get? n = some (n, step) := by
      rw [List.enum_get?, hn]
      rfl
    have hm : (n, step) ∈ (failed_steps plan).enum := List.get?_mem henum
    have hline : stepLine (n + 1) step ∈
        (failed_steps plan).enum.map (fun p => stepLine (p.1 + 1) p.2) :=
      List.mem_map_of_mem _ hm
    rw [task_summary, if_neg hne]
    exact List.mem_append_right _ (List.mem_cons_of_mem _ hline)

theorem C9_witness :
    ((⟨"s1", "北向资金分析", "market_news", "i1", "超时", .failed⟩ : PlanStep) ∈
      failed_steps [⟨"s1", "北向资金分析", "market_news", "i1", "超时", .failed⟩]) ∧
    "\n失败任务:" ∈
      task_summary [⟨"s1", "北向资金分析", "market_news", "i1", "超时", .failed⟩] ∧
    ∃ i, stepLine (i + 1) ⟨"s1", "北向资金分析", "market_news", "i1", "超时", .failed⟩ ∈
      task_summary [⟨"s1", "北向资金分析", "market_news", "i1", "超时", .failed⟩] := by
  have h := C9_failed_surfaced_to_oracle
    [⟨"s1", "北向资金分析", "market_news", "i1", "超时", .failed⟩]
    ⟨"s1", "北向资金分析", "market_news", "i1", "超时", .failed⟩ (by simp) rfl
  exact ⟨h.1, h.2.2.1, h.2.2.2⟩

end StockAI
